import Mathlib

/-!
Shallow embedding of `src/main.ipynb`, a Monte Carlo simulator for the
two-lane highway threshold problem, together with theorems about its cost
evaluator `simulate_cost_vectorized` and its bisection search `optimize`.

Machine floats are modelled by exact rationals.  All interval endpoints
reached by the search are dyadic rationals with denominator at most 2^10,
which doubles represent exactly, and the loop tolerance comparison
`high - low > 1e-3` has the same outcome for the float nearest 1e-3 as for
the rational 1/1000 at every reachable width 2^(-k), so the model is
faithful on all reachable states of the search.
-/

namespace MonteCarlo

/-- The drawn arrays of cell 2 of `main.ipynb`: `v1`, `v2` hold the raw
uniform draws (already in the shifted frame `[0,1]`), and `vmin`, `vmax`
the elementwise minimum and maximum.  NumPy arrays are modelled as lists
of rationals. -/
structure SampleState where
  v1 : List ℚ
  v2 : List ℚ
  vmin : List ℚ
  vmax : List ℚ
  deriving DecidableEq

/-- The sample construction of cell 2: `vmin = np.minimum(v1, v2)`,
`vmax = np.maximum(v1, v2)`. -/
def drawState (v1 v2 : List ℚ) : SampleState :=
  { v1 := v1
    v2 := v2
    vmin := List.zipWith min v1 v2
    vmax := List.zipWith max v1 v2 }

/-- The pairing of the `vmin` and `vmax` arrays that
`simulate_cost_vectorized` reads elementwise: pair `p` has `p.1` from
`vmin` and `p.2` from `vmax`. -/
def SampleState.pairs (st : SampleState) : List (ℚ × ℚ) :=
  st.vmin.zip st.vmax

/-- The concatenated cost array built inside `simulate_cost_vectorized`:
`case1 = a > vmax` contributes `(vmin[case1] - a) ** 2`,
`case2 = (a >= vmin) & (a <= vmax)` contributes `np.zeros(np.sum(case2))`,
`case3 = a < vmin` contributes `(vmin[case3] + 1) ** 2`,
and `all_costs = np.concatenate([cost1, cost2, cost3])`. -/
def all_costs (sample : List (ℚ × ℚ)) (a : ℚ) : List ℚ :=
  let case1 := sample.filter (fun p => decide (a > p.2))
  let cost1 := case1.map (fun p => (p.1 - a) ^ 2)
  let case2 := sample.filter (fun p => decide (a ≥ p.1 ∧ a ≤ p.2))
  let cost2 := List.replicate case2.length (0 : ℚ)
  let case3 := sample.filter (fun p => decide (a < p.1))
  let cost3 := case3.map (fun p => (p.1 + 1) ^ 2)
  cost1 ++ cost2 ++ cost3

/-- The function `simulate_cost_vectorized(a)` of cell 2: the mean of the
concatenated cost array over the fixed sample of `(vmin, vmax)` pairs. -/
def simulate_cost_vectorized (sample : List (ℚ × ℚ)) (a : ℚ) : ℚ :=
  (all_costs sample a).sum / ((all_costs sample a).length : ℚ)

/-- The per-pair cost exactly as the spec states it (section 4.1), which
also matches the branch masks of the code: `(vmin - a)^2` when `a > vmax`,
`0` when `vmin ≤ a ≤ vmax`, `(vmin + 1)^2` when `a < vmin`. -/
def specPairCost (vmin vmax a : ℚ) : ℚ :=
  if a > vmax then (vmin - a) ^ 2
  else if vmin ≤ a ∧ a ≤ vmax then 0
  else (vmin + 1) ^ 2

/-- The loop tolerance `epsilon = 1e-3` of `optimize`. -/
def epsilon : ℚ := 1 / 1000

/-- One iteration body of the `while` loop in `optimize`:
`mid = (low + high) / 2`; if `E(mid) < E(low)` then `low := mid` else
`high := mid`. -/
def optimizeStep (sample : List (ℚ × ℚ)) (low high : ℚ) : ℚ × ℚ :=
  let mid := (low + high) / 2
  let cost_mid := simulate_cost_vectorized sample mid
  let cost_low := simulate_cost_vectorized sample low
  if cost_mid < cost_low then (mid, high) else (low, mid)

/-- The `while high - low > epsilon` loop of `optimize`, modelled with an
explicit fuel argument; the returned natural number counts the iterations
actually executed.  `optimize_loop_from` below shows that any fuel of at
least 10 reaches the loop exit, so the fuel is not a semantic parameter. -/
def optimizeLoop (sample : List (ℚ × ℚ)) : ℚ → ℚ → Nat → (ℚ × ℚ) × Nat
  | low, high, 0 => ((low, high), 0)
  | low, high, fuel + 1 =>
    if high - low > epsilon then
      let s := optimizeStep sample low high
      let r := optimizeLoop sample s.1 s.2 fuel
      (r.1, r.2 + 1)
    else ((low, high), 0)

/-- The function `optimize(a)` of cell 2: it never reads its argument `a`,
always starting the search from `low = 0`, `high = 1`. -/
def optimize (sample : List (ℚ × ℚ)) (a : ℚ) (fuel : Nat) : (ℚ × ℚ) × Nat :=
  optimizeLoop sample 0 1 fuel

/-- The `(low, high)` state of the search after `k` unconditional
applications of the loop body, starting from `(0, 1)`. -/
def loopState (sample : List (ℚ × ℚ)) : Nat → ℚ × ℚ
  | 0 => (0, 1)
  | k + 1 => optimizeStep sample (loopState sample k).1 (loopState sample k).2

/-- One evaluation of `simulate_cost_vectorized` with the sample state
threaded explicitly: the body of the function only reads `vmin` and `vmax`
(boolean-mask selections and arithmetic produce fresh arrays) and performs
no assignment to any of the four arrays, so the state out is the state in. -/
def runEval (st : SampleState) (a : ℚ) : ℚ × SampleState :=
  (simulate_cost_vectorized st.pairs a, st)

/-- A sequence of threshold evaluations over the drawn state, threading
the state through each call. -/
def runEvalSeq (st : SampleState) : List ℚ → List ℚ × SampleState
  | [] => ([], st)
  | a :: as =>
    let r := runEval st a
    let rest := runEvalSeq r.2 as
    (r.1 :: rest.1, rest.2)

/-! ### Helper lemmas about the cost evaluator -/

/-- On one pair with `vmin ≤ vmax`, the three masks of
`simulate_cost_vectorized` are exhaustive and mutually exclusive, and the
function returns exactly the piecewise per-pair cost. -/
lemma simulate_singleton (vmin vmax a : ℚ) (h : vmin ≤ vmax) :
    simulate_cost_vectorized [(vmin, vmax)] a = specPairCost vmin vmax a := by
  by_cases h1 : a > vmax
  · have h3 : ¬ a < vmin := by push_neg; linarith
    have h2 : ¬ (a ≥ vmin ∧ a ≤ vmax) := by
      rintro ⟨_, hc⟩; linarith
    simp [simulate_cost_vectorized, all_costs, specPairCost, h1, h2, h3,
      List.filter]
  · by_cases h2 : a ≥ vmin ∧ a ≤ vmax
    · have h3 : ¬ a < vmin := by push_neg; exact h2.1
      have h2' : vmin ≤ a ∧ a ≤ vmax := ⟨h2.1, h2.2⟩
      simp [simulate_cost_vectorized, all_costs, specPairCost, h1, h2, h2',
        h3, List.filter]
    · have h3 : a < vmin := by
        push_neg at h1
        by_contra hc
        push_neg at hc
        exact h2 ⟨hc, h1⟩
      have h2' : ¬ (vmin ≤ a ∧ a ≤ vmax) := fun hc => h2 ⟨hc.1, hc.2⟩
      simp [simulate_cost_vectorized, all_costs, specPairCost, h1, h2, h2',
        h3, List.filter, not_lt.mpr h3.le]

/-- With `vmin ≤ vmax` for every pair, each pair lands in exactly one of
the three masks, so the mask sizes add up to the sample size. -/
lemma filtered_length (sample : List (ℚ × ℚ)) (a : ℚ)
    (h : ∀ p ∈ sample, p.1 ≤ p.2) :
    (sample.filter (fun p => decide (a > p.2))).length
      + (sample.filter (fun p => decide (a ≥ p.1 ∧ a ≤ p.2))).length
      + (sample.filter (fun p => decide (a < p.1))).length
      = sample.length := by
  induction sample with
  | nil => simp
  | cons q t ih =>
    have hq : q.1 ≤ q.2 := h q (List.mem_cons_self q t)
    have ht : ∀ x ∈ t, x.1 ≤ x.2 := fun x hx => h x (List.mem_cons_of_mem q hx)
    have iht := ih ht
    by_cases h1 : a > q.2
    · have h2 : ¬ (a ≥ q.1 ∧ a ≤ q.2) := fun hc => absurd h1 (not_lt.mpr hc.2)
      have h3 : ¬ a < q.1 := not_lt.mpr (le_trans hq (le_of_lt h1))
      rw [List.filter_cons_of_pos (by simpa using h1),
        List.filter_cons_of_neg (by simpa using h2),
        List.filter_cons_of_neg (by simpa using h3)]
      simp only [List.length_cons]
      omega
    · by_cases h3 : a < q.1
      · have h2 : ¬ (a ≥ q.1 ∧ a ≤ q.2) := fun hc => absurd h3 (not_lt.mpr hc.1)
        rw [List.filter_cons_of_neg (by simpa using h1),
          List.filter_cons_of_neg (by simpa using h2),
          List.filter_cons_of_pos (by simpa using h3)]
        simp only [List.length_cons]
        omega
      · have h2 : a ≥ q.1 ∧ a ≤ q.2 := ⟨not_lt.mp h3, not_lt.mp h1⟩
        rw [List.filter_cons_of_neg (by simpa using h1),
          List.filter_cons_of_pos (by simpa using h2),
          List.filter_cons_of_neg (by simpa using h3)]
        simp only [List.length_cons]
        omega

/-- With `vmin ≤ vmax` for every pair, the sum of the slow-lane-mask costs
and the fast-lane-mask costs is the sum of the piecewise per-pair costs
over the whole sample. -/
lemma filtered_sum (sample : List (ℚ × ℚ)) (a : ℚ)
    (h : ∀ p ∈ sample, p.1 ≤ p.2) :
    ((sample.filter (fun p => decide (a > p.2))).map (fun p => (p.1 - a) ^ 2)).sum
      + ((sample.filter (fun p => decide (a < p.1))).map (fun p => (p.1 + 1) ^ 2)).sum
      = (sample.map (fun p => specPairCost p.1 p.2 a)).sum := by
  induction sample with
  | nil => simp
  | cons q t ih =>
    have hq : q.1 ≤ q.2 := h q (List.mem_cons_self q t)
    have ht : ∀ x ∈ t, x.1 ≤ x.2 := fun x hx => h x (List.mem_cons_of_mem q hx)
    have iht := ih ht
    by_cases h1 : a > q.2
    · have h3 : ¬ a < q.1 := not_lt.mpr (le_trans hq (le_of_lt h1))
      have hcost : specPairCost q.1 q.2 a = (q.1 - a) ^ 2 := by
        rw [specPairCost, if_pos h1]
      rw [List.filter_cons_of_pos (by simpa using h1),
        List.filter_cons_of_neg (by simpa using h3),
        List.map_cons, List.sum_cons, List.map_cons, List.sum_cons, hcost]
      linarith
    · by_cases h3 : a < q.1
      · have h2 : ¬ (q.1 ≤ a ∧ a ≤ q.2) := fun hc => absurd h3 (not_lt.mpr hc.1)
        have hcost : specPairCost q.1 q.2 a = (q.1 + 1) ^ 2 := by
          rw [specPairCost, if_neg h1, if_neg h2]
        rw [List.filter_cons_of_neg (by simpa using h1),
          List.filter_cons_of_pos (by simpa using h3),
          List.map_cons, List.sum_cons, List.map_cons, List.sum_cons, hcost]
        linarith
      · have h2 : q.1 ≤ a ∧ a ≤ q.2 := ⟨not_lt.mp h3, not_lt.mp h1⟩
        have hcost : specPairCost q.1 q.2 a = 0 := by
          rw [specPairCost, if_neg h1, if_pos h2]
        rw [List.filter_cons_of_neg (by simpa using h1),
          List.filter_cons_of_neg (by simpa using h3),
          List.map_cons, List.sum_cons, hcost]
        linarith

/-- The value of `simulate_cost_vectorized` is the arithmetic mean of the
piecewise per-pair costs: the concatenated cost array has one entry per
pair and sums to the sum of the per-pair costs. -/
lemma simulate_eq_mean (sample : List (ℚ × ℚ)) (a : ℚ)
    (h : ∀ p ∈ sample, p.1 ≤ p.2) :
    simulate_cost_vectorized sample a
      = (sample.map (fun p => specPairCost p.1 p.2 a)).sum / (sample.length : ℚ) := by
  have hs := filtered_sum sample a h
  have hl := filtered_length sample a h
  simp only [simulate_cost_vectorized, all_costs, List.sum_append,
    List.length_append, List.sum_replicate, List.length_replicate,
    List.length_map, smul_zero]
  rw [show ((sample.filter (fun p => decide (a > p.2))).map
        (fun p => (p.1 - a) ^ 2)).sum + 0 +
      ((sample.filter (fun p => decide (a < p.1))).map
        (fun p => (p.1 + 1) ^ 2)).sum
      = (sample.map (fun p => specPairCost p.1 p.2 a)).sum by
    rw [← hs]; ring]
  congr 1
  norm_cast

/-! ### Helper lemmas about the bisection loop -/

/-- Each application of the loop body either moves `low` to the midpoint
or moves `high` to the midpoint. -/
lemma optimizeStep_cases (sample : List (ℚ × ℚ)) (low high : ℚ) :
    optimizeStep sample low high = ((low + high) / 2, high) ∨
    optimizeStep sample low high = (low, (low + high) / 2) := by
  unfold optimizeStep
  by_cases h : simulate_cost_vectorized sample ((low + high) / 2)
      < simulate_cost_vectorized sample low
  · left; simp [h]
  · right; simp [h]

/-- Each application of the loop body exactly halves the interval width. -/
lemma optimizeStep_width (sample : List (ℚ × ℚ)) (low high : ℚ) :
    (optimizeStep sample low high).2 - (optimizeStep sample low high).1
      = (high - low) / 2 := by
  rcases optimizeStep_cases sample low high with h | h <;> rw [h] <;> ring

/-- After `k` iterations from `(0, 1)` the interval width is `2⁻ᵏ`. -/
lemma loopState_width (sample : List (ℚ × ℚ)) (k : Nat) :
    (loopState sample k).2 - (loopState sample k).1 = (1 / 2) ^ k := by
  induction k with
  | zero => simp [loopState]
  | succ n ih =>
    rw [loopState, optimizeStep_width, ih]
    ring

/-- For the first ten iterations the loop guard `high - low > epsilon`
still holds. -/
lemma loopState_gt_epsilon (sample : List (ℚ × ℚ)) (k : Nat) (hk : k ≤ 9) :
    (loopState sample k).2 - (loopState sample k).1 > epsilon := by
  rw [loopState_width, epsilon]
  calc (1 / 1000 : ℚ) < (1 / 2) ^ 9 := by norm_num
    _ ≤ (1 / 2) ^ k := by
      apply pow_le_pow_of_le_one (by norm_num) (by norm_num) hk

/-- Starting the guarded loop at the state reached after `k ≤ 10`
iterations, with fuel at least the remaining `10 - k` iterations, it runs
exactly `10 - k` more iterations and stops at the state after 10. -/
lemma optimize_loop_from (sample : List (ℚ × ℚ)) :
    ∀ fuel k, k ≤ 10 → 10 - k ≤ fuel →
      optimizeLoop sample (loopState sample k).1 (loopState sample k).2 fuel
        = (loopState sample 10, 10 - k) := by
  intro fuel
  induction fuel with
  | zero =>
    intro k hk hf
    have hk10 : k = 10 := by omega
    subst hk10
    simp [optimizeLoop]
  | succ f ih =>
    intro k hk hf
    by_cases hk10 : k = 10
    · subst hk10
      have hcond : ¬ ((loopState sample 10).2 - (loopState sample 10).1 > epsilon) := by
        rw [loopState_width, epsilon]
        norm_num
      simp only [optimizeLoop, if_neg hcond]
    · have hklt : k ≤ 9 := by omega
      have hcond := loopState_gt_epsilon sample k hklt
      have hstep : optimizeStep sample (loopState sample k).1 (loopState sample k).2
          = loopState sample (k + 1) := rfl
      have ih' := ih (k + 1) (by omega) (by omega)
      simp only [optimizeLoop, if_pos hcond, hstep, ih']
      rw [Prod.mk.injEq]
      exact ⟨rfl, by omega⟩

/-! ### Claim theorems -/

/-- C1: for every fixed sample of pairs `(vmin, vmax)` with
`0 ≤ vmin ≤ vmax ≤ 1` and every threshold `a ∈ [0,1]`,
`simulate_cost_vectorized a` returns the arithmetic mean, over all drawn
pairs (each counted exactly once), of the per-pair cost `(vmin - a)^2`
when `a > vmax`, `0` when `vmin ≤ a ≤ vmax`, and `(vmin + 1)^2` when
`a < vmin`. -/
theorem simulate_cost_is_mean_of_pair_costs (sample : List (ℚ × ℚ)) (a : ℚ)
    (hs : ∀ p ∈ sample, 0 ≤ p.1 ∧ p.1 ≤ p.2 ∧ p.2 ≤ 1)
    (ha0 : 0 ≤ a) (ha1 : a ≤ 1) (hne : sample ≠ []) :
    simulate_cost_vectorized sample a
      = (sample.map (fun p => specPairCost p.1 p.2 a)).sum / (sample.length : ℚ) :=
  simulate_eq_mean sample a fun p hp => (hs p hp).2.1

/-- Witness for C1 at the one-pair sample `(1/2, 3/4)` and `a = 1/2`. -/
theorem simulate_cost_is_mean_of_pair_costs_witness :
    simulate_cost_vectorized [((1:ℚ)/2, (3:ℚ)/4)] (1/2)
      = (([((1:ℚ)/2, (3:ℚ)/4)]).map (fun p => specPairCost p.1 p.2 (1/2))).sum
        / (([((1:ℚ)/2, (3:ℚ)/4)] : List (ℚ × ℚ)).length : ℚ) :=
  simulate_cost_is_mean_of_pair_costs [((1:ℚ)/2, (3:ℚ)/4)] (1/2)
    (by intro p hp; rw [List.mem_singleton] at hp; subst hp; norm_num)
    (by norm_num) (by norm_num) (by simp)

/-- C2: for a pair with `0 ≤ vmin ≤ vmax ≤ 1` and `a ∈ [0,1]`, the
per-pair cost computed by `simulate_cost_vectorized` is `0` iff
`vmin ≤ a ≤ vmax`. -/
theorem per_pair_cost_zero_iff (vmin vmax a : ℚ) (h0 : 0 ≤ vmin)
    (h1 : vmin ≤ vmax) (h2 : vmax ≤ 1) (ha0 : 0 ≤ a) (ha1 : a ≤ 1) :
    simulate_cost_vectorized [(vmin, vmax)] a = 0 ↔ (vmin ≤ a ∧ a ≤ vmax) := by
  rw [simulate_singleton vmin vmax a h1, specPairCost]
  by_cases hc1 : a > vmax
  · rw [if_pos hc1]
    constructor
    · intro hz
      have hva : vmin - a = 0 := sq_eq_zero_iff.mp hz
      exact absurd hc1 (not_lt.mpr (by linarith))
    · rintro ⟨-, hle⟩
      exact absurd hc1 (not_lt.mpr hle)
  · by_cases hc2 : vmin ≤ a ∧ a ≤ vmax
    · rw [if_neg hc1, if_pos hc2]
      exact iff_of_true rfl hc2
    · rw [if_neg hc1, if_neg hc2]
      constructor
      · intro hz
        have hv1 : vmin + 1 = 0 := sq_eq_zero_iff.mp hz
        exact absurd hv1 (by intro hc; linarith)
      · intro hc
        exact absurd hc hc2

/-- Witness for C2 at `vmin = 1/4`, `vmax = 3/4`, `a = 1/2`. -/
theorem per_pair_cost_zero_iff_witness :
    simulate_cost_vectorized [((1:ℚ)/4, (3:ℚ)/4)] (1/2) = 0 ↔
      ((1:ℚ)/4 ≤ 1/2 ∧ (1/2:ℚ) ≤ 3/4) :=
  per_pair_cost_zero_iff (1/4) (3/4) (1/2) (by norm_num) (by norm_num)
    (by norm_num) (by norm_num) (by norm_num)

/-- C3: at the spec example, shifted pair `(vmin, vmax) = (0.7, 0.8)` with
shifted threshold `a = 0.2`, the code returns `(vmin + 1)^2 = 2.89`, not
the `0.25 = (vmin - a)^2` the example states: the `a < vmin` branch of
`simulate_cost_vectorized` is costed with the stop penalty instead of the
deceleration-to-`a` penalty. -/
theorem example_fast_lane_pair_cost :
    simulate_cost_vectorized [(7/10, 4/5)] (1/5) = 289/100 ∧
      (289/100 : ℚ) ≠ 1/4 := by
  constructor
  · norm_num [simulate_cost_vectorized, all_costs, List.filter]
  · norm_num

/-- C4: at the spec example, shifted pair `(vmin, vmax) = (0, 0.1)` with a
threshold in the `a > vmax` branch, for example `a = 0.5`, the code
returns `(vmin - a)^2 = 0.25`, not the exact `1.0 = (vmin + 1)^2` the
example states: the `a > vmax` branch of `simulate_cost_vectorized` is
costed with the deceleration-to-`a` penalty instead of the stop penalty. -/
theorem example_slow_lane_pair_cost :
    simulate_cost_vectorized [(0, 1/10)] (1/2) = 1/4 ∧ (1/4 : ℚ) ≠ 1 := by
  constructor
  · norm_num [simulate_cost_vectorized, all_costs, List.filter]
  · norm_num

/-- C5: for every fixed sample, `optimize` terminates: each iteration of
the loop exactly halves `high - low`, the guard `high - low > epsilon`
holds through the first ten iterations and fails after the tenth, and with
any fuel of at least 10 the guarded loop performs exactly 10 iterations
and stops. -/
theorem optimize_terminates_in_ten_iterations (sample : List (ℚ × ℚ)) (a : ℚ)
    (fuel : Nat) (hfuel : 10 ≤ fuel) :
    (∀ k, (loopState sample (k + 1)).2 - (loopState sample (k + 1)).1
        = ((loopState sample k).2 - (loopState sample k).1) / 2) ∧
    (∀ k, k < 10 → (loopState sample k).2 - (loopState sample k).1 > epsilon) ∧
    (loopState sample 10).2 - (loopState sample 10).1 ≤ epsilon ∧
    optimize sample a fuel = (loopState sample 10, 10) := by
  refine ⟨?_, ?_, ?_, ?_⟩
  · intro k
    rw [loopState]
    exact optimizeStep_width sample (loopState sample k).1 (loopState sample k).2
  · intro k hk
    exact loopState_gt_epsilon sample k (by omega)
  · rw [loopState_width, epsilon]
    norm_num
  · have h := optimize_loop_from sample fuel 0 (by omega) (by omega)
    simpa [optimize, loopState] using h

/-- Witness for C5 at the one-pair sample `(1/2, 3/4)`, argument `1/2` and
fuel 10. -/
theorem optimize_terminates_in_ten_iterations_witness :
    (∀ k, (loopState [((1:ℚ)/2, (3:ℚ)/4)] (k + 1)).2
          - (loopState [((1:ℚ)/2, (3:ℚ)/4)] (k + 1)).1
        = ((loopState [((1:ℚ)/2, (3:ℚ)/4)] k).2
          - (loopState [((1:ℚ)/2, (3:ℚ)/4)] k).1) / 2) ∧
    (∀ k, k < 10 → (loopState [((1:ℚ)/2, (3:ℚ)/4)] k).2
        - (loopState [((1:ℚ)/2, (3:ℚ)/4)] k).1 > epsilon) ∧
    (loopState [((1:ℚ)/2, (3:ℚ)/4)] 10).2
        - (loopState [((1:ℚ)/2, (3:ℚ)/4)] 10).1 ≤ epsilon ∧
    optimize [((1:ℚ)/2, (3:ℚ)/4)] (1/2) 10 = (loopState [((1:ℚ)/2, (3:ℚ)/4)] 10, 10) :=
  optimize_terminates_in_ten_iterations [((1:ℚ)/2, (3:ℚ)/4)] (1/2) 10 (by norm_num)

/-- C6: for `a ∈ [0,1]` and every sample with `0 ≤ vmin ≤ vmax ≤ 1`, the
value returned by `simulate_cost_vectorized` is nonnegative, and every
entry of the concatenated per-pair cost array is nonnegative. -/
theorem simulate_cost_nonneg (sample : List (ℚ × ℚ)) (a : ℚ)
    (hs : ∀ p ∈ sample, 0 ≤ p.1 ∧ p.1 ≤ p.2 ∧ p.2 ≤ 1)
    (ha0 : 0 ≤ a) (ha1 : a ≤ 1) :
    0 ≤ simulate_cost_vectorized sample a ∧ ∀ c ∈ all_costs sample a, 0 ≤ c := by
  have hall : ∀ c ∈ all_costs sample a, 0 ≤ c := by
    intro c hc
    simp only [all_costs] at hc
    rcases List.mem_append.mp hc with hc12 | hc3
    · rcases List.mem_append.mp hc12 with hc1 | hc2
      · obtain ⟨p, hp, hpc⟩ := List.mem_map.mp hc1
        rw [← hpc]
        exact sq_nonneg _
      · rw [List.eq_of_mem_replicate hc2]
    · obtain ⟨p, hp, hpc⟩ := List.mem_map.mp hc3
      rw [← hpc]
      exact sq_nonneg _
  exact ⟨div_nonneg (List.sum_nonneg hall) (Nat.cast_nonneg _), hall⟩

/-- Witness for C6 at the one-pair sample `(1/3, 2/3)` and `a = 1/2`. -/
theorem simulate_cost_nonneg_witness :
    0 ≤ simulate_cost_vectorized [((1:ℚ)/3, (2:ℚ)/3)] (1/2) ∧
      ∀ c ∈ all_costs [((1:ℚ)/3, (2:ℚ)/3)] (1/2), 0 ≤ c :=
  simulate_cost_nonneg [((1:ℚ)/3, (2:ℚ)/3)] (1/2)
    (by intro p hp; rw [List.mem_singleton] at hp; subst hp; norm_num)
    (by norm_num) (by norm_num)

/-- C7: evaluating `simulate_cost_vectorized` at any sequence of
thresholds leaves the drawn arrays `v1, v2, vmin, vmax` unchanged, and the
results are the values of one fixed function of the threshold, so two
evaluations at the same threshold over the same sample return the same
value. -/
theorem simulate_preserves_sample (st : SampleState) (as : List ℚ) :
    (runEvalSeq st as).2 = st ∧
    (runEvalSeq st as).1 = as.map (fun a => simulate_cost_vectorized st.pairs a) := by
  induction as with
  | nil => exact ⟨rfl, rfl⟩
  | cons a t ih =>
    refine ⟨?_, ?_⟩ <;> simp [runEvalSeq, runEval, ih.1, ih.2]

/-- C8: the argument passed to `optimize` has no effect on its behaviour:
for any two argument values over the same fixed sample, the search
performs identical iterations and produces identical results. -/
theorem optimize_ignores_argument (sample : List (ℚ × ℚ)) (x y : ℚ) (fuel : Nat) :
    optimize sample x fuel = optimize sample y fuel := rfl

/-- C9: at the boundary inputs `a = vmin` or `a = vmax` of a pair with
`vmin ≤ vmax`, the strict masks `a > vmax` and `a < vmin` are both false,
the inclusive middle mask holds, and the per-pair cost computed by
`simulate_cost_vectorized` is exactly `0`. -/
theorem boundary_cost_zero (vmin vmax a : ℚ) (hle : vmin ≤ vmax)
    (hb : a = vmin ∨ a = vmax) :
    ¬ a > vmax ∧ (a ≥ vmin ∧ a ≤ vmax) ∧ ¬ a < vmin ∧
      simulate_cost_vectorized [(vmin, vmax)] a = 0 := by
  have h2 : a ≥ vmin ∧ a ≤ vmax := by
    rcases hb with rfl | rfl
    · exact ⟨le_refl _, hle⟩
    · exact ⟨hle, le_refl _⟩
  have h1 : ¬ a > vmax := not_lt.mpr h2.2
  have h3 : ¬ a < vmin := not_lt.mpr h2.1
  refine ⟨h1, h2, h3, ?_⟩
  rw [simulate_singleton vmin vmax a hle, specPairCost, if_neg h1,
    if_pos (⟨h2.1, h2.2⟩ : vmin ≤ a ∧ a ≤ vmax)]

/-- Witness for C9 at `vmin = 1/3`, `vmax = 2/3`, `a = 1/3`. -/
theorem boundary_cost_zero_witness :
    ¬ ((1:ℚ)/3 > 2/3) ∧ ((1:ℚ)/3 ≥ 1/3 ∧ (1:ℚ)/3 ≤ 2/3) ∧ ¬ ((1:ℚ)/3 < 1/3) ∧
      simulate_cost_vectorized [((1:ℚ)/3, (2:ℚ)/3)] (1/3) = 0 :=
  boundary_cost_zero (1/3) (2/3) (1/3) (by norm_num) (Or.inl rfl)

/-- C10: throughout every execution of `optimize`, the invariant
`0 ≤ low < high ≤ 1` holds before and after each iteration, so every
midpoint and every `low` value passed to `simulate_cost_vectorized` lies
in `[0, 1)`. -/
theorem optimize_loop_invariant (sample : List (ℚ × ℚ)) (k : Nat) :
    (0 ≤ (loopState sample k).1 ∧
      (loopState sample k).1 < (loopState sample k).2 ∧
      (loopState sample k).2 ≤ 1) ∧
    0 ≤ ((loopState sample k).1 + (loopState sample k).2) / 2 ∧
    ((loopState sample k).1 + (loopState sample k).2) / 2 < 1 ∧
    (loopState sample k).1 < 1 := by
  have main : ∀ n : Nat, 0 ≤ (loopState sample n).1 ∧
      (loopState sample n).1 < (loopState sample n).2 ∧
      (loopState sample n).2 ≤ 1 := by
    intro n
    induction n with
    | zero => norm_num [loopState]
    | succ m ih =>
      obtain ⟨h0, hlh, h1⟩ := ih
      rw [loopState]
      rcases optimizeStep_cases sample (loopState sample m).1
          (loopState sample m).2 with hs | hs <;> rw [hs]
      · exact ⟨by linarith, by linarith, h1⟩
      · exact ⟨h0, by linarith, by linarith⟩
  obtain ⟨h0, hlh, h1⟩ := main k
  exact ⟨⟨h0, hlh, h1⟩, by linarith, by linarith, by linarith⟩

end MonteCarlo
